import Mathlib

/-!
Shallow embedding of the streaming-and-control engine of `remote_desktop.py`
(DJ Remote Desktop).  Bytes are modelled as `Nat` values (0..255) and byte
strings as `List Nat`; a TCP receive direction is modelled as the list of
packets (`List (List Nat)`) successive `recv` calls deliver, where an empty
packet (or running out of packets) models the peer having closed the
connection.  Machine integers are `Int`/`Nat`; Python float time arithmetic is
modelled exactly over `ℚ`.
-/

namespace RemoteDesktop

/-! ### Adaptive quality controller (run_server_loop, lines 464-472) -/

/-- One step of the adaptive JPEG-quality controller: translated from
`run_server_loop` lines 469-472, with `quality` = `self.jpeg_quality` and
`lastFrameSize` = `self.last_frame_size`. -/
def adjustQuality (quality lastFrameSize : Int) : Int :=
  if lastFrameSize > 150000 then max 20 (quality - 5)
  else if lastFrameSize < 50000 ∧ quality < 90 then min 90 (quality + 5)
  else quality

/-- Quality reached after a sequence of observed payload sizes, applying the
controller once per frame as the streaming loop does. -/
def runQuality (quality : Int) : List Int → Int
  | [] => quality
  | s :: rest => runQuality (adjustQuality quality s) rest

lemma adjustQuality_mem (q s : Int) (h1 : 20 ≤ q) (h2 : q ≤ 90) :
    20 ≤ adjustQuality q s ∧ adjustQuality q s ≤ 90 := by
  unfold adjustQuality
  split
  · constructor <;> omega
  · split
    · constructor <;> omega
    · exact ⟨h1, h2⟩

lemma runQuality_mem (sizes : List Int) : ∀ q : Int, 20 ≤ q → q ≤ 90 →
    20 ≤ runQuality q sizes ∧ runQuality q sizes ≤ 90 := by
  induction sizes with
  | nil => intro q h1 h2; exact ⟨h1, h2⟩
  | cons s rest ih =>
      intro q h1 h2
      have h := adjustQuality_mem q s h1 h2
      exact ih (adjustQuality q s) h.1 h.2

/-- C1: the adaptive quality controller decreases by 5 (clamped at 20) when the
last payload exceeded 150000 bytes, increases by 5 (clamped at 90) when it was
below 50000 bytes and quality is below 90, and is unchanged otherwise; the
three concrete examples hold, and starting from any quality in [20,90] every
reachable quality stays in [20,90]. -/
theorem quality_controller_spec :
    (∀ q s : Int, s > 150000 → adjustQuality q s = max 20 (q - 5)) ∧
    (∀ q s : Int, ¬ s > 150000 → s < 50000 → q < 90 →
      adjustQuality q s = min 90 (q + 5)) ∧
    (∀ q s : Int, ¬ s > 150000 → ¬ (s < 50000 ∧ q < 90) → adjustQuality q s = q) ∧
    adjustQuality 70 200000 = 65 ∧
    adjustQuality 85 10000 = 90 ∧
    adjustQuality 20 500000 = 20 ∧
    (∀ (q : Int) (sizes : List Int), 20 ≤ q → q ≤ 90 →
      20 ≤ runQuality q sizes ∧ runQuality q sizes ≤ 90) := by
  refine ⟨?_, ?_, ?_, by decide, by decide, by decide, ?_⟩
  · intro q s h; simp [adjustQuality, h]
  · intro q s h1 h2 h3; simp [adjustQuality, h1, h2, h3]
  · intro q s h1 h2; simp [adjustQuality, h1, h2]
  · intro q sizes h1 h2; exact runQuality_mem sizes q h1 h2

/-- Witness for `quality_controller_spec` at concrete inputs. -/
theorem quality_controller_spec_witness :
    (200000 : Int) > 150000 ∧ adjustQuality 70 200000 = max 20 (70 - 5) ∧
    20 ≤ runQuality 70 [200000, 10000, 500000] ∧
    runQuality 70 [200000, 10000, 500000] ≤ 90 := by
  refine ⟨by decide, quality_controller_spec.1 70 200000 (by decide), ?_, ?_⟩
  · exact (quality_controller_spec.2.2.2.2.2.2 70 [200000, 10000, 500000]
      (by decide) (by decide)).1
  · exact (quality_controller_spec.2.2.2.2.2.2 70 [200000, 10000, 500000]
      (by decide) (by decide)).2

/-! ### Framed transport: byte encoding and `_recv_all` (lines 614-622) -/

/-- Big-endian fixed-width encoding of a natural number, modelling Python
`n.to_bytes(w, big)` for `n < 256 ^ w`. -/
def toBytesBE (w n : Nat) : List Nat :=
  match w with
  | 0 => []
  | w + 1 => toBytesBE w (n / 256) ++ [n % 256]

/-- Big-endian decoding, modelling Python `int.from_bytes(bs, big)`. -/
def fromBytesBE (bs : List Nat) : Nat :=
  bs.foldl (fun a b => a * 256 + b) 0

lemma length_toBytesBE (w n : Nat) : (toBytesBE w n).length = w := by
  induction w generalizing n with
  | zero => rfl
  | succ w ih => simp [toBytesBE, ih]

lemma fromBytesBE_append_singleton (bs : List Nat) (b : Nat) :
    fromBytesBE (bs ++ [b]) = fromBytesBE bs * 256 + b := by
  simp [fromBytesBE, List.foldl_append]

lemma fromBytesBE_toBytesBE (w n : Nat) (h : n < 256 ^ w) :
    fromBytesBE (toBytesBE w n) = n := by
  induction w generalizing n with
  | zero =>
      simp [pow_zero] at h
      simp [toBytesBE, fromBytesBE, h]
  | succ w ih =>
      have hdiv : n / 256 < 256 ^ w := by
        rw [Nat.div_lt_iff_lt_mul (by norm_num : 0 < 256)]
        calc n < 256 ^ (w + 1) := h
        _ = 256 ^ w * 256 := by ring
      rw [toBytesBE, fromBytesBE_append_singleton, ih _ hdiv]
      exact (Nat.div_add_mod n 256).symm ▸ by omega

/-- One `sock.recv(req)` call on a receive direction modelled as a list of
pending packets.  An empty packet (or an exhausted packet list) models the
peer having closed the connection: the call returns zero bytes, and every
later call does too.  A packet larger than `req` stays buffered. -/
def recv (chunks : List (List Nat)) (req : Nat) : List Nat × List (List Nat) :=
  match chunks with
  | [] => ([], [])
  | c :: rest =>
    if c = [] then ([], c :: rest)
    else (c.take req, if c.drop req = [] then rest else c.drop req :: rest)

/-- Loop body of `_recv_all` (lines 614-622): accumulate into `data` until
`n` bytes are held; a zero-byte read makes the whole call return `none`
(Python `None`), never a short byte string.  `fuel` bounds the iteration
count; `_recv_all` supplies `fuel = n`, which suffices because every
successful read adds at least one byte. -/
def recvAllAux : Nat → List Nat → List (List Nat) → Nat →
    Option (List Nat) × List (List Nat)
  | 0, data, chunks, n =>
    if data.length < n then (none, chunks) else (some data, chunks)
  | fuel + 1, data, chunks, n =>
    if data.length < n then
      let pr := recv chunks (n - data.length)
      if pr.1 = [] then (none, pr.2)
      else recvAllAux fuel (data ++ pr.1) pr.2 n
    else (some data, chunks)

/-- Translation of `_recv_all(self, sock, n)` (lines 614-622): returns the
accumulated `n` bytes, or `none` when the peer closes first, together with
the not-yet-consumed part of the receive direction. -/
def _recv_all (chunks : List (List Nat)) (n : Nat) :
    Option (List Nat) × List (List Nat) :=
  recvAllAux n [] chunks n

/-- Bytes available on the receive direction before the peer-closed point. -/
def availBytes : List (List Nat) → List Nat
  | [] => []
  | c :: rest => if c = [] then [] else c ++ availBytes rest

lemma take_split (c A : List Nat) (req : Nat) :
    c.take req ++ (c.drop req ++ A).take (req - (c.take req).length) =
      (c ++ A).take req := by
  rcases le_or_lt c.length req with h | h
  · rw [List.take_of_length_le h, List.drop_of_length_le h]
    have hr : (c ++ A).take req = c ++ A.take (req - c.length) := by
      rw [List.take_append_eq_append_take, List.take_of_length_le h]
    rw [hr, List.nil_append]
  · have h1 : (c.take req).length = req := by
      rw [List.length_take]; omega
    rw [h1, Nat.sub_self, List.take_zero, List.append_nil,
      List.take_append_eq_append_take]
    have h2 : req - c.length = 0 := by omega
    rw [h2, List.take_zero, List.append_nil]

lemma recvAllAux_spec (fuel : Nat) : ∀ (data : List Nat)
    (chunks : List (List Nat)) (n : Nat),
    data.length ≤ n → n - data.length ≤ fuel →
    (n ≤ data.length + (availBytes chunks).length →
      (recvAllAux fuel data chunks n).1 =
        some (data ++ (availBytes chunks).take (n - data.length))) ∧
    (data.length + (availBytes chunks).length < n →
      (recvAllAux fuel data chunks n).1 = none) := by
  induction fuel with
  | zero =>
      intro data chunks n hle hfuel
      have hn : data.length = n := by omega
      constructor
      · intro _
        simp [recvAllAux, hn]
      · intro h; omega
  | succ fuel ih =>
      intro data chunks n hle hfuel
      by_cases hlt : data.length < n
      · -- the loop runs one more iteration
        match chunks with
        | [] =>
            constructor
            · intro h; simp [availBytes] at h; omega
            · intro _
              simp [recvAllAux, hlt, recv]
        | c :: rest =>
            by_cases hc : c = []
            · subst hc
              constructor
              · intro h; simp [availBytes] at h; omega
              · intro _
                simp [recvAllAux, hlt, recv]
            · -- a nonempty packet is delivered
              have hreq : 0 < n - data.length := by omega
              have hclen : 0 < c.length := by
                cases c with
                | nil => exact absurd rfl hc
                | cons a t => simp
              have hpacket : c.take (n - data.length) ≠ [] := by
                simp only [ne_eq, List.take_eq_nil_iff]
                push_neg
                exact ⟨by omega, hc⟩
              have hstep : recvAllAux (fuel + 1) data (c :: rest) n =
                  recvAllAux fuel (data ++ c.take (n - data.length))
                    (if c.drop (n - data.length) = [] then rest
                     else c.drop (n - data.length) :: rest) n := by
                rw [recvAllAux]
                rw [if_pos hlt]
                simp only [recv, if_neg hc]
                rw [if_neg hpacket]
              set req := n - data.length with hreqdef
              have hsum : (c.take req).length + (c.drop req).length =
                  c.length := by
                rw [← List.length_append, List.take_append_drop]
              have htk_le : (c.take req).length ≤ req := by
                rw [List.length_take]; omega
              have hdrop : (c.drop req).length = c.length - req := by
                rw [List.length_drop]
              have htk_pos : 0 < (c.take req).length :=
                List.length_pos_of_ne_nil hpacket
              have hle2 : (data ++ c.take req).length ≤ n := by
                rw [List.length_append]; omega
              have hfuel2 : n - (data ++ c.take req).length ≤ fuel := by
                rw [List.length_append]; omega
              have havail : availBytes (c :: rest) = c ++ availBytes rest := by
                simp [availBytes, hc]
              have havail2 : availBytes
                  (if c.drop req = [] then rest else c.drop req :: rest) =
                  c.drop req ++ availBytes rest := by
                by_cases hd : c.drop req = []
                · simp [hd]
                · simp [hd, availBytes]
              have ihspec := ih (data ++ c.take req)
                (if c.drop req = [] then rest else c.drop req :: rest) n
                hle2 hfuel2
              rw [havail2] at ihspec
              constructor
              · intro h
                rw [hstep]
                rw [havail] at h
                rw [List.length_append] at h
                have hcond : n ≤ (data ++ c.take req).length +
                    (c.drop req ++ availBytes rest).length := by
                  simp only [List.length_append]
                  omega
                rw [ihspec.1 hcond]
                congr 1
                rw [havail]
                have hk : n - (data ++ c.take req).length =
                    req - (c.take req).length := by
                  rw [List.length_append]; omega
                rw [hk, List.append_assoc, take_split, hreqdef]
              · intro h
                rw [hstep]
                rw [havail] at h
                rw [List.length_append] at h
                apply ihspec.2
                simp only [List.length_append]
                omega
      · -- already have n bytes: immediate success
        have hn : data.length = n := by omega
        constructor
        · intro _
          simp [recvAllAux, hn]
        · intro h; omega

/-- C6: `_recv_all` returns exactly the first `n` available bytes when at
least `n` bytes arrive before the peer closes (accumulating across multiple
`recv` calls), returns the distinct failure value `none` when the peer closes
first, and a successful result always has length exactly `n` — never a short
byte string. -/
theorem recv_all_spec :
    (∀ (chunks : List (List Nat)) (n : Nat),
      n ≤ (availBytes chunks).length →
      (_recv_all chunks n).1 = some ((availBytes chunks).take n)) ∧
    (∀ (chunks : List (List Nat)) (n : Nat),
      (availBytes chunks).length < n → (_recv_all chunks n).1 = none) ∧
    (∀ (chunks : List (List Nat)) (n : Nat),
      (_recv_all chunks n).1 = none ∨
      ∃ r, (_recv_all chunks n).1 = some r ∧ r.length = n) := by
  have base := fun (chunks : List (List Nat)) (n : Nat) =>
    recvAllAux_spec n [] chunks n (by simp) (by simp)
  refine ⟨?_, ?_, ?_⟩
  · intro chunks n h
    have := (base chunks n).1 (by simpa using h)
    simpa [_recv_all] using this
  · intro chunks n h
    have := (base chunks n).2 (by simpa using h)
    simpa [_recv_all] using this
  · intro chunks n
    rcases le_or_lt n (availBytes chunks).length with h | h
    · right
      refine ⟨(availBytes chunks).take n, ?_, by simp [h]⟩
      have := (base chunks n).1 (by simpa using h)
      simpa [_recv_all] using this
    · left
      have := (base chunks n).2 (by simpa using h)
      simpa [_recv_all] using this

/-- Witness for `recv_all_spec`: three bytes requested, delivered across two
underlying reads; also the failure case when the peer closes after one byte. -/
theorem recv_all_spec_witness :
    ((3 : Nat) ≤ (availBytes [[1, 2], [3, 4]]).length ∧
      (_recv_all [[1, 2], [3, 4]] 3).1 = some [1, 2, 3]) ∧
    ((availBytes [[7], []]).length < 2 ∧ (_recv_all [[7], []] 2).1 = none) := by
  constructor
  · refine ⟨by decide, ?_⟩
    have := recv_all_spec.1 [[1, 2], [3, 4]] 3 (by decide)
    simpa using this
  · refine ⟨by decide, ?_⟩
    exact recv_all_spec.2.1 [[7], []] 2 (by decide)

lemma recv_all_zero (chunks : List (List Nat)) :
    _recv_all chunks 0 = (some [], chunks) := rfl

lemma recv_all_single (s : List Nat) (n : Nat) (h0 : 0 < n)
    (hle : n ≤ s.length) :
    _recv_all [s] n = (some (s.take n),
      if s.drop n = [] then ([] : List (List Nat)) else [s.drop n]) := by
  obtain ⟨m, rfl⟩ : ∃ m, n = m + 1 := ⟨n - 1, by omega⟩
  have hs : s ≠ [] := by
    intro hnil
    rw [hnil] at hle
    simp at hle
  have hpacket : s.take (m + 1) ≠ [] := by
    simp only [ne_eq, List.take_eq_nil_iff]
    push_neg
    exact ⟨by omega, hs⟩
  have htklen : (s.take (m + 1)).length = m + 1 := by
    rw [List.length_take]; omega
  rw [_recv_all, recvAllAux]
  rw [if_pos (by simp)]
  simp only [recv, if_neg hs, List.length_nil, Nat.sub_zero, List.nil_append]
  rw [if_neg hpacket]
  cases m with
  | zero =>
      rw [recvAllAux]
      rw [if_neg (by simp only [List.length_take]; omega)]
  | succ k =>
      rw [recvAllAux]
      rw [if_neg (by simp only [List.length_take]; omega)]

/-! ### Length-prefixed framing (C2) -/

/-- Video-channel frame as written by the server (line 480):
8-byte big-endian payload size followed by the payload. -/
def sendVideoFrame (p : List Nat) : List Nat :=
  toBytesBE 8 p.length ++ p

/-- Input-channel message as written by the client (lines 783-787):
4-byte big-endian length followed by the UTF-8 command bytes. -/
def sendInputCommand (p : List Nat) : List Nat :=
  toBytesBE 4 p.length ++ p

/-- Reader for a `w`-byte length-prefixed message: read the prefix with
`_recv_all`, decode it big-endian, then read exactly that many bytes with
`_recv_all` (the shape of `_client_receive_loop` lines 671-677 and
`handle_client_input` lines 562-568). -/
def readLenPrefixed (w : Nat) (chunks : List (List Nat)) :
    Option (List Nat) × List (List Nat) :=
  match _recv_all chunks w with
  | (none, ch) => (none, ch)
  | (some lb, ch1) => _recv_all ch1 (fromBytesBE lb)

lemma readLenPrefixed_roundtrip (w : Nat) (hw : 0 < w) (p rest : List Nat)
    (hlen : p.length < 256 ^ w) :
    (readLenPrefixed w [toBytesBE w p.length ++ p ++ rest]).1 = some p := by
  have hwlen : (toBytesBE w p.length).length = w := length_toBytesBE _ _
  have hstream : (toBytesBE w p.length ++ p ++ rest) =
      toBytesBE w p.length ++ (p ++ rest) := by
    rw [List.append_assoc]
  have hslen : w ≤ (toBytesBE w p.length ++ (p ++ rest)).length := by
    rw [List.length_append, hwlen]; omega
  have htake : (toBytesBE w p.length ++ (p ++ rest)).take w =
      toBytesBE w p.length := List.take_left' hwlen
  have hdrop : (toBytesBE w p.length ++ (p ++ rest)).drop w = p ++ rest :=
    List.drop_left' hwlen
  rw [readLenPrefixed, hstream, recv_all_single _ w hw hslen]
  simp only [htake, hdrop, fromBytesBE_toBytesBE w p.length hlen]
  by_cases hpne : p = []
  · subst hpne
    simp [recv_all_zero]
  · have hppos : 0 < p.length := List.length_pos_of_ne_nil hpne
    have hprne : p ++ rest ≠ [] := by
      intro hcon
      exact hpne (List.append_eq_nil.mp hcon).1
    rw [if_neg hprne, recv_all_single _ p.length hppos
      (by rw [List.length_append]; omega)]
    simp [List.take_left]

/-- C2: framing round-trip.  The video channel writes an 8-byte big-endian
length followed by the payload, the input channel a 4-byte big-endian length
followed by the payload, and a reader that reads the length prefix and then
exactly that many bytes via `_recv_all` recovers the payload unchanged. -/
theorem framing_roundtrip :
    (∀ p rest : List Nat, p.length < 2 ^ 64 →
      (readLenPrefixed 8 [sendVideoFrame p ++ rest]).1 = some p) ∧
    (∀ p rest : List Nat, p.length < 2 ^ 32 →
      (readLenPrefixed 4 [sendInputCommand p ++ rest]).1 = some p) := by
  constructor
  · intro p rest h
    have : p.length < 256 ^ 8 := by norm_num at h ⊢; omega
    exact readLenPrefixed_roundtrip 8 (by norm_num) p rest this
  · intro p rest h
    have : p.length < 256 ^ 4 := by norm_num at h ⊢; omega
    exact readLenPrefixed_roundtrip 4 (by norm_num) p rest this

/-- Witness for `framing_roundtrip` at a concrete payload. -/
theorem framing_roundtrip_witness :
    (([10, 20, 30] : List Nat).length < 2 ^ 64 ∧
      (readLenPrefixed 8 [sendVideoFrame [10, 20, 30] ++ [9]]).1 =
        some [10, 20, 30]) ∧
    (([77] : List Nat).length < 2 ^ 32 ∧
      (readLenPrefixed 4 [sendInputCommand [77] ++ []]).1 = some [77]) :=
  ⟨⟨by norm_num, framing_roundtrip.1 [10, 20, 30] [9] (by norm_num)⟩,
   ⟨by norm_num, framing_roundtrip.2 [77] [] (by norm_num)⟩⟩

/-! ### Input command parsing and the server input loop (lines 557-612) -/

/-- Python `str.split(sep)` for a single-character separator, over the
character list of the string.  `splitOnChar sep []` is `[[]]`, matching
Python where `"".split("|") == [""]`. -/
def splitOnChar (sep : Char) : List Char → List (List Char)
  | [] => [[]]
  | c :: rest =>
    match splitOnChar sep rest with
    | g :: gs => if c = sep then [] :: g :: gs else (c :: g) :: gs
    | [] => [[c]]

/-- Decimal digit-string value; `none` when empty or containing a
non-digit. -/
def parseDigits (cs : List Char) : Option Nat :=
  match cs with
  | [] => none
  | _ =>
    if cs.all Char.isDigit then
      some (cs.foldl (fun a c => a * 10 + (c.toNat - 48)) 0)
    else none

/-- Model of Python `int(s)` on the sign-plus-decimal-digits fragment
(remote commands only ever carry such fields): `none` models the
`ValueError` raised on any other string, e.g. `int("abc")`. -/
def parsePyInt (cs : List Char) : Option Int :=
  match cs with
  | '-' :: rest => (parseDigits rest).map (fun n => -(n : Int))
  | '+' :: rest => (parseDigits rest).map (fun n => (n : Int))
  | _ => (parseDigits cs).map (fun n => (n : Int))

/-- Semantic input event handed to the injection provider (pyautogui). -/
inductive InputEvent
  | mouseMove (x y : Int)
  | mouseClick (button : List Char) (x y : Int)
  | mouseDown (button : List Char) (x y : Int)
  | mouseUp (button : List Char) (x y : Int)
  | mouseScroll (clicks : Int)
  | keyDown (key : List Char)
  | keyUp (key : List Char)
  deriving DecidableEq

/-- Command dispatch of `handle_client_input` (lines 574-597): split on
the bar character, branch on the type tag and field count, convert integer
fields.  `none` covers every dropped record: unknown tag or wrong field
count (no branch taken) as well as a failed integer conversion
(`ValueError`, caught at lines 601-602). -/
def processCommand (cs : List Char) : Option InputEvent :=
  let ps := splitOnChar '|' cs
  let t := ps.headD []
  if t = "MOUSE_MOVE".data ∧ ps.length = 3 then
    match parsePyInt (ps.getD 1 []), parsePyInt (ps.getD 2 []) with
    | some x, some y => some (.mouseMove x y)
    | _, _ => none
  else if t = "MOUSE_CLICK".data ∧ ps.length = 4 then
    match parsePyInt (ps.getD 2 []), parsePyInt (ps.getD 3 []) with
    | some x, some y => some (.mouseClick (ps.getD 1 []) x y)
    | _, _ => none
  else if t = "MOUSE_DOWN".data ∧ ps.length = 4 then
    match parsePyInt (ps.getD 2 []), parsePyInt (ps.getD 3 []) with
    | some x, some y => some (.mouseDown (ps.getD 1 []) x y)
    | _, _ => none
  else if t = "MOUSE_UP".data ∧ ps.length = 4 then
    match parsePyInt (ps.getD 2 []), parsePyInt (ps.getD 3 []) with
    | some x, some y => some (.mouseUp (ps.getD 1 []) x y)
    | _, _ => none
  else if t = "MOUSE_SCROLL".data ∧ ps.length = 2 then
    match parsePyInt (ps.getD 1 []) with
    | some k => some (.mouseScroll k)
    | none => none
  else if t = "KEY_DOWN".data ∧ ps.length = 2 then
    some (.keyDown (ps.getD 1 []))
  else if t = "KEY_UP".data ∧ ps.length = 2 then
    some (.keyUp (ps.getD 1 []))
  else none

/-- Model of `bytes.decode("utf-8")` restricted to the ASCII fragment
(every protocol command is ASCII); `none` models a `UnicodeDecodeError`,
which the inner handler catches so the loop continues. -/
def decodeAscii (bs : List Nat) : Option (List Char) :=
  if bs.all (· < 128) then some (bs.map Char.ofNat) else none

/-- ASCII encoding of a command string, as `str.encode("utf-8")` produces
for ASCII text. -/
def encodeAscii (cs : List Char) : List Nat := cs.map Char.toNat

/-- Wire form of one input-channel message for command text `cs`
(client side, lines 783-787). -/
def inputMessage (cs : List Char) : List Nat :=
  toBytesBE 4 (encodeAscii cs).length ++ encodeAscii cs

/-- Translation of the `handle_client_input` loop (lines 557-612), returning
the sequence of events injected before the loop ends.  Each iteration reads a
4-byte length then the body via `_recv_all`; a `None`/empty result breaks;
a record that fails to decode or parse is skipped and the loop continues.
`fuel` bounds the number of iterations. -/
def handle_client_input : Nat → List (List Nat) → List InputEvent
  | 0, _ => []
  | fuel + 1, chunks =>
    match _recv_all chunks 4 with
    | (none, _) => []
    | (some lb, chunks1) =>
      if lb = [] then []
      else
        match _recv_all chunks1 (fromBytesBE lb) with
        | (none, _) => []
        | (some cd, chunks2) =>
          if cd = [] then []
          else
            match decodeAscii cd with
            | none => handle_client_input fuel chunks2
            | some cs =>
              match processCommand cs with
              | some e => e :: handle_client_input fuel chunks2
              | none => handle_client_input fuel chunks2

lemma handle_client_input_nil (fuel : Nat) :
    handle_client_input fuel [] = [] := by
  cases fuel <;> rfl

lemma handle_client_input_nil_chunk (fuel : Nat) :
    handle_client_input fuel [[]] = [] := by
  cases fuel <;> rfl

lemma decodeAscii_encodeAscii (cs : List Char)
    (h : ∀ c ∈ cs, c.toNat < 128) :
    decodeAscii (encodeAscii cs) = some cs := by
  rw [decodeAscii, if_pos]
  · rw [encodeAscii, List.map_map]
    congr 1
    conv_rhs => rw [← List.map_id cs]
    apply List.map_congr_left
    intro c _
    exact Char.ofNat_toNat c
  · rw [encodeAscii, List.all_eq_true]
    intro b hb
    rw [List.mem_map] at hb
    obtain ⟨c, hc, rfl⟩ := hb
    simpa using h c hc

/-- One loop iteration on a well-framed but undecodable-or-malformed record:
the record is consumed, nothing is injected, and the loop continues on the
remaining bytes. -/
lemma handle_client_input_step_drop (fuel : Nat) (bad : List Char)
    (rest : List Nat) (hascii : ∀ c ∈ bad, c.toNat < 128) (hne : bad ≠ [])
    (hlen : bad.length < 2 ^ 32) (hparse : processCommand bad = none) :
    handle_client_input (fuel + 1) [inputMessage bad ++ rest] =
      handle_client_input fuel [rest] := by
  have heblen : (encodeAscii bad).length = bad.length := by
    simp [encodeAscii]
  have hebne : encodeAscii bad ≠ [] := by
    simp [encodeAscii, hne]
  have hebpos : 0 < (encodeAscii bad).length :=
    List.length_pos_of_ne_nil hebne
  have hpriflen : (toBytesBE 4 (encodeAscii bad).length).length = 4 :=
    length_toBytesBE _ _
  have hstream : inputMessage bad ++ rest =
      toBytesBE 4 (encodeAscii bad).length ++ (encodeAscii bad ++ rest) := by
    rw [inputMessage, List.append_assoc]
  have hslen : 4 ≤ (toBytesBE 4 (encodeAscii bad).length ++
      (encodeAscii bad ++ rest)).length := by
    rw [List.length_append, hpriflen]; omega
  have htake := @List.take_left' Nat _ (encodeAscii bad ++ rest) _ hpriflen
  have hdrop := @List.drop_left' Nat _ (encodeAscii bad ++ rest) _ hpriflen
  have hval : fromBytesBE (toBytesBE 4 (encodeAscii bad).length) =
      (encodeAscii bad).length := by
    apply fromBytesBE_toBytesBE
    rw [heblen]
    calc bad.length < 2 ^ 32 := hlen
    _ = 256 ^ 4 := by norm_num
  have hbodyne : encodeAscii bad ++ rest ≠ [] := by
    intro hcon
    exact hebne (List.append_eq_nil.mp hcon).1
  rw [handle_client_input, hstream, recv_all_single _ 4 (by norm_num) hslen,
    htake, hdrop]
  rw [if_neg hbodyne]
  simp only [hval]
  rw [if_neg (show ¬ toBytesBE 4 (encodeAscii bad).length = [] by
    intro hcon
    have hl := congrArg List.length hcon
    rw [hpriflen] at hl
    simp at hl)]
  rw [recv_all_single _ _ hebpos (by rw [List.length_append]; omega)]
  rw [List.take_left, List.drop_left]
  simp only [if_neg hebne, decodeAscii_encodeAscii bad hascii, hparse]
  by_cases hrest : rest = []
  · subst hrest
    simp [handle_client_input_nil, handle_client_input_nil_chunk]
  · rw [if_neg hrest]

/-- C3: a malformed input record (wrong field count for its type, or an
integer field that fails to parse) is dropped: no event is injected for it,
the input loop is not terminated, and a following well-formed record on the
same connection is still parsed and injected.  Concretely,
`MOUSE_MOVE|abc` and `MOUSE_MOVE|12|abc` are dropped, and a following
`MOUSE_MOVE|100|200` still injects a move to (100, 200). -/
theorem malformed_command_skipped :
    (∀ (fuel : Nat) (bad : List Char) (rest : List Nat),
      (∀ c ∈ bad, c.toNat < 128) → bad ≠ [] → bad.length < 2 ^ 32 →
      processCommand bad = none →
      handle_client_input (fuel + 1) [inputMessage bad ++ rest] =
        handle_client_input fuel [rest]) ∧
    processCommand "MOUSE_MOVE|abc".data = none ∧
    processCommand "MOUSE_MOVE|12|abc".data = none ∧
    handle_client_input 2 [inputMessage "MOUSE_MOVE|abc".data ++
        inputMessage "MOUSE_MOVE|100|200".data] =
      [InputEvent.mouseMove 100 200] := by
  refine ⟨handle_client_input_step_drop, by decide, by decide, ?_⟩
  rw [handle_client_input_step_drop 1 "MOUSE_MOVE|abc".data
    (inputMessage "MOUSE_MOVE|100|200".data) (by decide) (by decide)
    (by decide) (by decide)]
  decide

/-- Witness for `malformed_command_skipped` at concrete inputs. -/
theorem malformed_command_skipped_witness :
    (∀ c ∈ "MOUSE_SCROLL|up".data, c.toNat < 128) ∧
    "MOUSE_SCROLL|up".data ≠ [] ∧
    "MOUSE_SCROLL|up".data.length < 2 ^ 32 ∧
    processCommand "MOUSE_SCROLL|up".data = none ∧
    handle_client_input 1 [inputMessage "MOUSE_SCROLL|up".data ++ []] =
      handle_client_input 0 [[]] :=
  ⟨by decide, by decide, by decide, by decide,
    malformed_command_skipped.1 0 "MOUSE_SCROLL|up".data []
      (by decide) (by decide) (by decide) (by decide)⟩

/-- C10: a message on the input channel whose 4-byte length prefix is zero
is not processed as an empty command record: `_recv_all(conn, 0)` returns
the empty byte string, which is falsy, so the loop breaks as if the
connection had closed — nothing after the zero-length message is processed.
-/
theorem zero_length_prefix_closes_input_loop :
    (∀ chunks : List (List Nat), (_recv_all chunks 0).1 = some []) ∧
    (∀ (fuel : Nat) (rest : List Nat),
      handle_client_input fuel [toBytesBE 4 0 ++ rest] = []) := by
  constructor
  · intro chunks
    rw [recv_all_zero]
  · intro fuel rest
    cases fuel with
    | zero => rfl
    | succ fuel =>
        have hpriflen : (toBytesBE 4 0).length = 4 := length_toBytesBE _ _
        have hslen : 4 ≤ (toBytesBE 4 0 ++ rest).length := by
          rw [List.length_append, hpriflen]; omega
        have htake := @List.take_left' Nat _ rest _ hpriflen
        have hdrop := @List.drop_left' Nat _ rest _ hpriflen
        rw [handle_client_input, recv_all_single _ 4 (by norm_num) hslen,
          htake, hdrop]
        simp [show toBytesBE 4 0 = [0, 0, 0, 0] from rfl,
          show fromBytesBE [0, 0, 0, 0] = 0 from rfl, recv_all_zero]

/-! ### Latest-frame buffer (lines 682-684 and 699-703) -/

/-- Arrival of a received frame payload (`_client_receive_loop` lines
682-684): the buffer is overwritten unconditionally under the lock. -/
def store_latest_frame (_buffer : Option (List Nat)) (p : List Nat) :
    Option (List Nat) :=
  some p

/-- Consumption step of `_update_image_label_from_buffer` (lines 699-703):
under the lock, if the buffer holds a truthy (nonempty) payload it is taken
and the buffer is cleared; otherwise nothing is taken and the buffer is left
unchanged.  Returns (taken payload, new buffer). -/
def consume_latest_frame (buffer : Option (List Nat)) :
    Option (List Nat) × Option (List Nat) :=
  match buffer with
  | some (b :: bs) => (some (b :: bs), none)
  | some [] => (none, some [])
  | none => (none, none)

/-- C4: the latest-frame buffer holds at most one undelivered payload —
a new arrival overwrites whatever was buffered, so after two arrivals and
one consume only the second payload is returned and the buffer is cleared;
consuming a buffered payload takes it and clears the buffer; consuming an
empty buffer returns nothing-new and leaves the state unchanged.  (Arriving
payloads are nonempty: the receive loop breaks before storing a falsy
payload, line 678-680.) -/
theorem latest_frame_buffer_spec :
    (∀ (buffer : Option (List Nat)) (p : List Nat),
      store_latest_frame buffer p = some p) ∧
    (∀ (buffer : Option (List Nat)) (p1 p2 : List Nat), p2 ≠ [] →
      consume_latest_frame
        (store_latest_frame (store_latest_frame buffer p1) p2) =
        (some p2, none)) ∧
    (∀ p : List Nat, p ≠ [] →
      consume_latest_frame (some p) = (some p, none)) ∧
    consume_latest_frame none = (none, none) := by
  refine ⟨fun _ _ => rfl, ?_, ?_, rfl⟩
  · intro buffer p1 p2 h
    cases p2 with
    | nil => exact absurd rfl h
    | cons b bs => rfl
  · intro p h
    cases p with
    | nil => exact absurd rfl h
    | cons b bs => rfl

/-- Witness for `latest_frame_buffer_spec` at concrete payloads. -/
theorem latest_frame_buffer_spec_witness :
    ([9, 9] : List Nat) ≠ [] ∧
    consume_latest_frame
      (store_latest_frame (store_latest_frame none [1]) [9, 9]) =
      (some [9, 9], none) :=
  ⟨by decide, latest_frame_buffer_spec.2.1 none [1] [9, 9] (by decide)⟩

/-! ### Frame decode in the consumer (lines 694-726) -/

/-- Translation of `_update_image_label_from_buffer` (lines 694-726),
parameterized by the two external decode collaborators:
`decompress` models `zlib.decompress` (`none` = raised `zlib.error` on
corrupt data) and `imdecode` models `cv2.imdecode` (`none` = returned
`None` on corrupt image data).  Result: (new buffer state, displayed image,
whether `stop_client_session` was invoked).  The generic `except` at lines
724-726 catches a decompression exception and tears the session down; the
explicit `frame is None` check at lines 710-712 only drops the frame. -/
def _update_image_label_from_buffer
    (decompress imdecode : List Nat → Option (List Nat))
    (connected : Bool) (buffer : Option (List Nat)) :
    Option (List Nat) × Option (List Nat) × Bool :=
  if connected = false then (buffer, none, false)
  else
    match buffer with
    | some (b :: bs) =>
      match decompress (b :: bs) with
      | none => (none, none, true)
      | some raw =>
        match imdecode raw with
        | none => (none, none, false)
        | some img => (none, some img, false)
    | other => (other, none, false)

/-- C5 counterexample: a buffered payload whose decompression fails
(`zlib.decompress` raises, modelled by a `decompress` collaborator returning
`none` on the payload `[0]`) does tear the session down: the generic
exception handler at lines 724-726 calls `stop_client_session`.  The third
component `true` records that teardown was invoked, contradicting the claim
that a decode failure never tears down the session. -/
theorem decode_failure_counterexample :
    _update_image_label_from_buffer (fun _ => none) (fun _ => none)
      true (some [0]) = (none, none, true) := rfl

/-- C5 (amended): a buffered payload that decompresses but whose image
decode fails (`cv2.imdecode` returns `None`) is dropped — buffer cleared,
nothing displayed, session kept — while a payload whose decompression
raises causes session teardown via the generic exception handler. -/
theorem decode_failure_drops_frame :
    (∀ (decompress imdecode : List Nat → Option (List Nat))
      (p raw : List Nat), p ≠ [] → decompress p = some raw →
      imdecode raw = none →
      _update_image_label_from_buffer decompress imdecode true (some p) =
        (none, none, false)) ∧
    (∀ (decompress imdecode : List Nat → Option (List Nat)) (p : List Nat),
      p ≠ [] → decompress p = none →
      _update_image_label_from_buffer decompress imdecode true (some p) =
        (none, none, true)) := by
  constructor
  · intro decompress imdecode p raw hne hdec him
    cases p with
    | nil => exact absurd rfl hne
    | cons b bs =>
        rw [_update_image_label_from_buffer]
        simp [hdec, him]
  · intro decompress imdecode p hne hdec
    cases p with
    | nil => exact absurd rfl hne
    | cons b bs =>
        rw [_update_image_label_from_buffer]
        simp [hdec]

/-- Witness for `decode_failure_drops_frame` at concrete collaborators. -/
theorem decode_failure_drops_frame_witness :
    ([5] : List Nat) ≠ [] ∧
    (fun _ : List Nat => some [7]) [5] = some [7] ∧
    (fun _ : List Nat => (none : Option (List Nat))) [7] = none ∧
    _update_image_label_from_buffer (fun _ => some [7]) (fun _ => none)
      true (some [5]) = (none, none, false) :=
  ⟨by decide, rfl, rfl,
    decode_failure_drops_frame.1 (fun _ => some [7]) (fun _ => none)
      [5] [7] (by decide) rfl rfl⟩

/-! ### Teardown idempotence (stop_client_session 887-911, stop_server 523-554) -/

/-- Client-side session state mutated by `stop_client_session`. -/
structure ClientSessionState where
  is_client_connected : Bool
  is_streaming : Bool
  client_socket : Option Unit
  ui_timer_active : Bool
  image_label_text : List Char
  deriving DecidableEq

/-- Translation of `stop_client_session` (lines 887-911): an early return
when not connected, otherwise stop the UI timer, clear both flags, close and
drop the socket, and reset the image label. -/
def stop_client_session (s : ClientSessionState) : ClientSessionState :=
  if s.is_client_connected then
    { is_client_connected := false
      is_streaming := false
      client_socket := none
      ui_timer_active := false
      image_label_text :=
        "Connection lost or stream ended. Please reconnect.".data }
  else s

/-- Server-side session state mutated by `stop_server`. -/
structure ServerSessionState where
  is_server_running : Bool
  is_streaming : Bool
  server_socket : Option Unit
  server_connection : Option Unit
  deriving DecidableEq

/-- Translation of `stop_server` (lines 523-554): an early return when the
server is not running, otherwise clear both flags and close and drop the
client connection and the listening socket. -/
def stop_server (s : ServerSessionState) : ServerSessionState :=
  if s.is_server_running then
    { is_server_running := false
      is_streaming := false
      server_socket := none
      server_connection := none }
  else s

/-- C7: teardown is idempotent — for every session state, a second call to
the client disconnect operation (or the server stop operation) leaves the
state exactly as one call does; the second call takes the early-return path
and performs no further mutation. -/
theorem teardown_idempotent :
    (∀ s : ClientSessionState,
      stop_client_session (stop_client_session s) = stop_client_session s) ∧
    (∀ s : ServerSessionState,
      stop_server (stop_server s) = stop_server s) := by
  constructor
  · intro s
    by_cases h : s.is_client_connected = true <;>
      simp [stop_client_session, h]
  · intro s
    by_cases h : s.is_server_running = true <;>
      simp [stop_server, h]

/-! ### Frame-rate throttle (run_server_loop, lines 452-459) -/

/-- Duration the throttle sleeps at the top of one streaming iteration
(lines 455-458): `time_to_sleep = 1/fps - (current - last)` and the loop
sleeps only when positive.  Python float arithmetic is modelled exactly
over `ℚ`. -/
def throttle_sleep (fps lastFrameTime currentTime : ℚ) : ℚ :=
  let timeToSleep := 1 / fps - (currentTime - lastFrameTime)
  if timeToSleep > 0 then timeToSleep else 0

/-- The reference instant `last_frame_time` recorded for the next iteration
(line 459): the clock reading right after the sleep completes. -/
def next_frame_mark (fps lastFrameTime currentTime : ℚ) : ℚ :=
  currentTime + throttle_sleep fps lastFrameTime currentTime

/-- C8: the throttle sleeps exactly `max 0 (1/fps - elapsed)` where
`elapsed` is measured from the instant recorded in the previous iteration
(line 459, taken when the previous sleep ended and processing of the
previous frame began); if processing the previous frame took at least the
target interval the loop does not sleep; and consecutive recorded marks are
spaced `max elapsed (1/fps)` apart — never less than the target interval,
so the loop never bursts frames to catch up. -/
theorem frame_rate_throttle_spec :
    (∀ fps l c : ℚ, throttle_sleep fps l c = max 0 (1 / fps - (c - l))) ∧
    (∀ fps m p : ℚ, 1 / fps ≤ p → throttle_sleep fps m (m + p) = 0) ∧
    (∀ fps l c : ℚ, next_frame_mark fps l c - l = max (c - l) (1 / fps)) := by
  have hmax : ∀ fps l c : ℚ,
      throttle_sleep fps l c = max 0 (1 / fps - (c - l)) := by
    intro fps l c
    rw [throttle_sleep]
    rcases lt_or_le (0 : ℚ) (1 / fps - (c - l)) with h | h
    · rw [if_pos h, max_eq_right h.le]
    · rw [if_neg (not_lt.mpr h), max_eq_left h]
  refine ⟨hmax, ?_, ?_⟩
  · intro fps m p h
    rw [hmax]
    have : 1 / fps - (m + p - m) ≤ 0 := by linarith
    rw [max_eq_left this]
  · intro fps l c
    rw [next_frame_mark, hmax]
    rcases le_total (1 / fps) (c - l) with h | h
    · rw [max_eq_left (by linarith), max_eq_left h]
      ring
    · rw [max_eq_right (by linarith), max_eq_right h]
      ring

/-- Witness for `frame_rate_throttle_spec`: at 15 fps with the previous
frame having taken 1/10 s (more than the 1/15 s interval), no sleep. -/
theorem frame_rate_throttle_spec_witness :
    (1 : ℚ) / 15 ≤ 1 / 10 ∧ throttle_sleep 15 2 (2 + 1 / 10) = 0 :=
  ⟨by norm_num, frame_rate_throttle_spec.2.1 15 2 (1 / 10) (by norm_num)⟩

/-! ### Client mouse coordinate mapping (send_input_events, lines 729-777) -/

/-- Python `int(x)` on a float value, modelled exactly on `ℚ`: truncation
toward zero. -/
def pyTrunc (q : ℚ) : Int := Int.tdiv q.num (q.den : Int)

/-- One-axis coordinate mapping of `send_input_events` (lines 757-773):
subtract the letterbox centering offset `(labelDim - scaledDim) / 2`,
multiply by the scale factor `origDim / scaledDim`, truncate to an integer,
and clamp to `[0, origDim - 1]`. -/
def map_coord (xLabel : ℚ) (labelDim scaledDim origDim : Int) : Int :=
  let offset : ℚ := ((labelDim : ℚ) - (scaledDim : ℚ)) / 2
  let scale : ℚ := (origDim : ℚ) / (scaledDim : ℚ)
  let xo := pyTrunc ((xLabel - offset) * scale)
  max 0 (min xo (origDim - 1))

/-- Qt `QSize::scaled` with `Qt.KeepAspectRatio` (the collaborator call at
line 755), translated from the Qt 6 implementation: degenerate source sizes
(width or height 0) return the target unchanged; otherwise the source is
fitted inside the target preserving aspect ratio, with C++ integer division
(truncation toward zero). -/
def qsize_scaled_keepAspect (w h tw th : Int) : Int × Int :=
  if w = 0 ∨ h = 0 then (tw, th)
  else
    let rw := Int.tdiv (th * w) h
    if rw ≤ tw then (rw, th) else (tw, Int.tdiv (tw * h) w)

/-- Modelled from the PySide6 collaborator API: `QLabel.pixmap()` returns a
`QPixmap` **by value** — a null pixmap of size 0x0 while no pixmap has been
set — and never Python `None`.  `displayed` is the scaled-to-fit pixmap
stored by `_update_image_label_from_buffer` at lines 720-723 once a frame
has been shown (its dimensions are display dimensions, not the dimensions
of the frame the server sent). -/
def label_pixmap (displayed : Option (Int × Int)) : Option (Int × Int) :=
  match displayed with
  | none => some (0, 0)
  | some d => some d

/-- Mouse branch of `send_input_events` (lines 736-775).  `pixmap` is the
value of `self.image_label.pixmap()` (line 737): the early return at lines
738-740 fires only on Python `None`, and `pixmapW`/`pixmapH` — the
`original_width`/`original_height` of lines 749-750 — are the stored
pixmap's own dimensions.  The fitted size of line 755 is recomputed with
`qsize_scaled_keepAspect`, then each axis is mapped by `map_coord`
(offset subtraction, scaling by pixmapDim / fittedDim, truncation,
clamping to `[0, pixmapDim - 1]`). -/
def send_input_events (pixmap : Option (Int × Int)) (labelW labelH : Int)
    (x y : ℚ) : Option (Int × Int) :=
  match pixmap with
  | none => none
  | some (pw, ph) =>
    let scaled := qsize_scaled_keepAspect pw ph labelW labelH
    some (map_coord x labelW scaled.1 pw, map_coord y labelH scaled.2 ph)

/-- Mapping the claim (and spec section 4.6) describes, stated from its
words for comparison: the target dimensions `origW`/`origH` are the
dimensions of the server's original frame, the scale factor is
originalDimension / scaledDimension, and the result is clamped to
`[0, originalDimension - 1]`. -/
def claimed_mouse_mapping (origW origH scaledW scaledH labelW labelH : Int)
    (x y : ℚ) : Int × Int :=
  (map_coord x labelW scaledW origW, map_coord y labelH scaledH origH)

/-- C9: the code diverges from the claim at concrete inputs.  Before any
frame has been displayed the label holds a null 0x0 pixmap — never Python
`None`, so the skip branch is dead — and a mouse event at (520, 330) on a
1000x600 surface sends `MOUSE_MOVE|0|0` instead of no command.  After a
1920x1080 server frame has been displayed as a 960x540 fitted pixmap in a
960x540 surface, an event at (500, 300) sends (500, 300) — the displayed
pixmap's own coordinates — while the claimed mapping to the server's
original 1920x1080 frame would send (1000, 600). -/
theorem mouse_mapping_divergence :
    label_pixmap none = some (0, 0) ∧
    send_input_events (label_pixmap none) 1000 600 520 330 = some (0, 0) ∧
    send_input_events (label_pixmap (some (960, 540))) 960 540 500 300 =
      some (500, 300) ∧
    claimed_mouse_mapping 1920 1080 960 540 960 540 500 300 =
      (1000, 600) := by
  refine ⟨rfl, ?_, ?_, ?_⟩
  · have hsc : qsize_scaled_keepAspect 0 0 1000 600 = (1000, 600) := by
      decide
    simp only [label_pixmap, send_input_events, hsc]
    norm_num [map_coord, pyTrunc]
  · have hsc : qsize_scaled_keepAspect 960 540 960 540 = (960, 540) := by
      decide
    simp only [label_pixmap, send_input_events, hsc]
    norm_num [map_coord, pyTrunc]
  · rw [claimed_mouse_mapping]
    norm_num [map_coord, pyTrunc]

end RemoteDesktop
